import Mathlib

/-!
Verification of `shirt_trends_monitor.py` (bt9988/newshirt).

Shallow embedding of the filter / dedup / alert pipeline:
`TrendMonitor.is_valid_phrase`, `TrendMonitor._load_seen_phrases`,
`TrendMonitor._save_seen_phrases`, `TrendMonitor.send_telegram_alert`
and the per-candidate loop of `TrendMonitor.run`.

Python strings are Lean `String`s; the Python `set` of seen phrases is a
`Finset String`; the durable JSON file is the inductive `FileContent`;
the Telegram transport is an oracle `sendOk : String → Growth → Bool`
giving the outcome of each `requests.post` (the code catches every
transport failure inside `send_telegram_alert`, so the outcome can only
influence logging, never control flow — the embedding makes that
explicit by threading the oracle through the loop and recording the
outcome next to each dispatched phrase).
-/

/-- Python `str.lower()` restricted to the ASCII case mapping (all phrases and
all rule entries in this program are ASCII). -/
def pyLower (s : String) : String := ⟨s.data.map Char.toLower⟩

/-- Auxiliary for `pySubstr`: does the second character list start with the
first one? -/
def pyStartsWith : List Char → List Char → Bool
  | [], _ => true
  | _ :: _, [] => false
  | a :: as, b :: bs => a == b && pyStartsWith as bs

/-- Does the first character list occur contiguously inside the second? -/
def pySubstr : List Char → List Char → Bool
  | needle, [] => pyStartsWith needle []
  | needle, c :: rest => pyStartsWith needle (c :: rest) || pySubstr needle rest

/-- Python's substring test `sub in s` on strings. -/
def pyIn (sub s : String) : Bool := pySubstr sub.data s.data

/-- `EXCLUDED_COLORS` (source lines 38-41).  The Python value is a `set`;
only membership/iteration-for-existence is ever used, so a list is a
faithful embedding. -/
def EXCLUDED_COLORS : List String :=
  ["white", "black", "red", "blue", "green", "yellow",
   "pink", "purple", "brown", "grey", "gray", "orange"]

/-- `EXCLUDED_MATERIALS` (source lines 43-45). -/
def EXCLUDED_MATERIALS : List String :=
  ["linen", "denim", "cotton", "silk", "wool"]

/-- `EXCLUDED_BRANDS` (source lines 47-49). -/
def EXCLUDED_BRANDS : List String :=
  ["supreme", "bape", "hardy", "custom", "nike", "adidas", "armour",
   "under", "emotions", "punisher", "social", "karl", "spiderman", "chanel"]

/-- The inner helper `contains_excluded` of `is_valid_phrase`
(source lines 106-112): some entry of the set occurs as a substring of the
lowercased phrase. -/
def contains_excluded (excluded_set : List String) (lower_phrase : String) : Bool :=
  excluded_set.any (fun item => pyIn item lower_phrase)

/-- `TrendMonitor.is_valid_phrase` (source lines 92-126): lowercase the
phrase, require the substring `"shirt"`, reject on any excluded color,
material or brand substring. -/
def is_valid_phrase (phrase : String) : Bool :=
  let lower_phrase := pyLower phrase
  if !(pyIn "shirt" lower_phrase) then false
  else if contains_excluded EXCLUDED_COLORS lower_phrase then false
  else if contains_excluded EXCLUDED_MATERIALS lower_phrase then false
  else if contains_excluded EXCLUDED_BRANDS lower_phrase then false
  else true

/-- The growth indicator attached to a candidate (`item['value']`): either a
number or a string such as `"Breakout"`. -/
inductive Growth where
  | num (n : Int)
  | str (s : String)
deriving DecidableEq

/-- Python `str(growth_value)` on the two shapes a growth value takes. -/
def pyStr : Growth → String
  | .num n => toString n
  | .str s => s

/-- Python `str.title()` restricted to ASCII: the first character of every
run of letters is uppercased, the rest of the run lowercased, non-letters
are kept.  `prevAlpha` says whether the previous character was a letter. -/
def pyTitleAux : Bool → List Char → List Char
  | _, [] => []
  | prevAlpha, c :: rest =>
    if c.isAlpha then
      (if prevAlpha then c.toLower else c.toUpper) :: pyTitleAux true rest
    else
      c :: pyTitleAux false rest

/-- Python `phrase.title()`. -/
def pyTitle (s : String) : String := ⟨pyTitleAux false s.data⟩

/-- `growth_str` of `send_telegram_alert` (source line 158):
`"BREAKOUT" if str(growth_value).lower() == 'breakout' else f"+{growth_value}%"`. -/
def growthStr (growth_value : Growth) : String :=
  if pyLower (pyStr growth_value) == "breakout" then "BREAKOUT"
  else "+" ++ pyStr growth_value ++ "%"

/-- The `message` f-string of `send_telegram_alert` (source lines 160-166).
The leading characters are the literal bytes of the source file (a
mojibake-encoded emoji, U+00F0 U+0178 U+2018 U+2022). -/
def telegramMessage (phrase : String) (growth_value : Growth) (timestamp : String) : String :=
  "ðŸ‘• <b>NEW TREND DETECTED</b>\n\nPhrase: <b>" ++ pyTitle phrase ++
    "</b>\nGrowth: " ++ growthStr growth_value ++
    "\nStatus: RISING\nTime: " ++ timestamp

/-- A JSON value as `json.load` can return it for the seen-phrases file.
`arr` is the shape the program itself writes (an array of strings);
`num` is a well-formed JSON file holding a number, which `json.load`
parses successfully. -/
inductive JVal where
  | arr (elts : List String)
  | num (n : Int)
deriving DecidableEq

/-- The state of the durable file `seen_trends.json` as seen by
`_load_seen_phrases`: absent, unreadable (`open`/read raises `IOError`),
not decodable as JSON (`json.load` raises `json.JSONDecodeError`), or
holding a parsed JSON value. -/
inductive FileContent where
  | missing
  | ioError
  | invalidJson
  | content (v : JVal)
deriving DecidableEq

/-- Result of calling `_load_seen_phrases`: a returned set, or an exception
escaping the function (named by its Python class). -/
inductive LoadResult where
  | ok (s : Finset String)
  | raises (e : String)
deriving DecidableEq

/-- `TrendMonitor._load_seen_phrases` (source lines 72-82).
Missing file: `os.path.exists` fails, return `set()`.  `IOError` and
`json.JSONDecodeError` are caught: warn and return `set()`.  A decoded
array of strings becomes `set(data)`.  A decoded JSON number makes
`set(data)` raise `TypeError` (an `int` is not iterable), which is not in
the `except` clause and escapes the function: modelled as `LoadResult.raises`. -/
def load_seen_phrases : FileContent → LoadResult
  | .missing => .ok ∅
  | .ioError => .ok ∅
  | .invalidJson => .ok ∅
  | .content (.arr l) => .ok l.toFinset
  | .content (.num _) => .raises "TypeError"

/-- `TrendMonitor._save_seen_phrases` (source lines 84-90) when the write
succeeds: `json.dump(list(self.seen_phrases), f)` replaces the file with
the JSON array of the set's elements.  `list(set)` enumerates in an
arbitrary order; the embedding picks the sorted enumeration as the
canonical one (only the resulting set is ever observed). -/
def save_seen_phrases (seen_phrases : Finset String) : FileContent :=
  .content (.arr (seen_phrases.sort (· ≤ ·)))

/-- One record of the list `fetch_rising_queries` returns: the fields
`item['query']` and `item['value']` used by `run`. -/
structure TrendItem where
  query : String
  value : Growth
deriving DecidableEq

/-- Observable outcome of the per-candidate loop of `TrendMonitor.run`
(source lines 190-212), plus the final in-memory set and counter.
`skippedSeen` records candidates skipped by the `query in self.seen_phrases`
check (in order); `evaluated` records every query passed to
`is_valid_phrase`; `filtered` those it rejected; `dispatches` the phrases
for which `send_telegram_alert` was called, paired with the transport
outcome the oracle gave. -/
structure RunResult where
  skippedSeen : List String
  evaluated : List String
  filtered : List String
  dispatches : List (String × Bool)
  seen : Finset String
  new_trends_found : Nat
deriving DecidableEq

/-- The `for item in potential_trends` loop of `TrendMonitor.run`
(source lines 190-212): skip a seen query; otherwise evaluate the filter;
on success dispatch the alert, add the query to `seen_phrases` and
increment `new_trends_found`; on failure do nothing.  `sendOk` is the
transport oracle; its answer is recorded but (as in the source, where
`send_telegram_alert` swallows every failure) never branches on. -/
def runLoop (sendOk : String → Growth → Bool) :
    Finset String → List TrendItem → RunResult
  | seen, [] =>
    { skippedSeen := [], evaluated := [], filtered := [], dispatches := [],
      seen := seen, new_trends_found := 0 }
  | seen, item :: rest =>
    if item.query ∈ seen then
      let r := runLoop sendOk seen rest
      { r with skippedSeen := item.query :: r.skippedSeen }
    else if is_valid_phrase item.query then
      let r := runLoop sendOk (insert item.query seen) rest
      { r with evaluated := item.query :: r.evaluated,
               dispatches := (item.query, sendOk item.query item.value) :: r.dispatches,
               new_trends_found := r.new_trends_found + 1 }
    else
      let r := runLoop sendOk seen rest
      { r with evaluated := item.query :: r.evaluated,
               filtered := item.query :: r.filtered }

/-- `TrendMonitor.run` (source lines 184-218) around the loop: run the loop
from the loaded set, then call `_save_seen_phrases` iff
`new_trends_found > 0`.  The second component is `some newFile` when the
save was invoked (and succeeded) and `none` when no write was performed. -/
def run (sendOk : String → Growth → Bool) (seen : Finset String)
    (items : List TrendItem) : RunResult × Option FileContent :=
  let r := runLoop sendOk seen items
  (r, if r.new_trends_found > 0 then some (save_seen_phrases r.seen) else none)

/-- The durable file after a run: the saved file when a save happened,
otherwise the previous file, unchanged. -/
def fileAfter (oldFile : FileContent) (saved : Option FileContent) : FileContent :=
  saved.getD oldFile

/-! ### Helper lemmas about the candidate loop -/

/-- The final in-memory set is the initial one plus the dispatched phrases. -/
theorem runLoop_seen_eq (sendOk : String → Growth → Bool) (seen : Finset String)
    (items : List TrendItem) :
    (runLoop sendOk seen items).seen =
      seen ∪ ((runLoop sendOk seen items).dispatches.map Prod.fst).toFinset := by
  induction items generalizing seen with
  | nil => simp [runLoop]
  | cons item rest ih =>
    by_cases h1 : item.query ∈ seen
    · simp [runLoop, h1, ih]
    · by_cases h2 : is_valid_phrase item.query
      · simp only [runLoop, h1, if_false, h2, if_true, ite_false, ite_true]
        simp [ih, Finset.insert_union, Finset.union_insert]
      · simp [runLoop, h1, h2, ih]

/-- Every dispatched phrase was valid, absent from the initial set, and one of
the candidates. -/
theorem runLoop_dispatch_mem (sendOk : String → Growth → Bool) (seen : Finset String)
    (items : List TrendItem) (q : String) :
    q ∈ (runLoop sendOk seen items).dispatches.map Prod.fst →
      is_valid_phrase q = true ∧ q ∉ seen ∧ q ∈ items.map TrendItem.query := by
  induction items generalizing seen with
  | nil => simp [runLoop]
  | cons item rest ih =>
    by_cases h1 : item.query ∈ seen
    · simp only [runLoop, h1, if_true, ite_true]
      intro h
      rcases ih seen h with ⟨hv, hn, hm⟩
      exact ⟨hv, hn, by simp [hm]⟩
    · by_cases h2 : is_valid_phrase item.query
      · simp only [runLoop, h1, h2, if_false, if_true, ite_false, ite_true,
          List.map_cons, List.mem_cons]
        intro h
        rcases h with h | h
        · subst h; exact ⟨h2, h1, by simp⟩
        · rcases ih (insert item.query seen) h with ⟨hv, hn, hm⟩
          refine ⟨hv, fun hq => hn (Finset.mem_insert_of_mem hq), by simp [hm]⟩
      · simp only [runLoop, h1, h2, if_false, ite_false]
        intro h
        rcases ih seen h with ⟨hv, hn, hm⟩
        exact ⟨hv, hn, by simp [hm]⟩

/-- No phrase is dispatched twice in one run. -/
theorem runLoop_dispatch_nodup (sendOk : String → Growth → Bool) (seen : Finset String)
    (items : List TrendItem) :
    ((runLoop sendOk seen items).dispatches.map Prod.fst).Nodup := by
  induction items generalizing seen with
  | nil => simp [runLoop]
  | cons item rest ih =>
    by_cases h1 : item.query ∈ seen
    · simp [runLoop, h1, ih]
    · by_cases h2 : is_valid_phrase item.query
      · simp only [runLoop, h1, h2, if_false, if_true, ite_false, ite_true,
          List.map_cons, List.nodup_cons]
        refine ⟨fun hmem => ?_, ih (insert item.query seen)⟩
        rcases runLoop_dispatch_mem sendOk (insert item.query seen) rest item.query hmem
          with ⟨_, hn, _⟩
        exact hn (Finset.mem_insert_self _ _)
      · simp [runLoop, h1, h2, ih]

/-- A valid candidate phrase absent from the initial set is dispatched. -/
theorem runLoop_dispatch_complete (sendOk : String → Growth → Bool) (seen : Finset String)
    (items : List TrendItem) (q : String) :
    q ∈ items.map TrendItem.query → is_valid_phrase q = true → q ∉ seen →
      q ∈ (runLoop sendOk seen items).dispatches.map Prod.fst := by
  induction items generalizing seen with
  | nil => simp
  | cons item rest ih =>
    intro hmem hv hn
    rw [List.map_cons, List.mem_cons] at hmem
    by_cases h1 : item.query ∈ seen
    · simp only [runLoop, h1, if_true, ite_true]
      rcases hmem with h | h
      · exact absurd (h ▸ h1) hn
      · exact ih seen h hv hn
    · by_cases h2 : is_valid_phrase item.query = true
      · simp only [runLoop, h1, h2, if_false, if_true, ite_false, ite_true,
          List.map_cons, List.mem_cons]
        rcases hmem with h | h
        · exact Or.inl h
        · by_cases hq : q = item.query
          · exact Or.inl hq
          · refine Or.inr (ih (insert item.query seen) h hv ?_)
            intro hins
            rcases Finset.mem_insert.mp hins with hh | hh
            · exact hq hh
            · exact hn hh
      · have h2f : is_valid_phrase item.query = false := by simpa using h2
        simp only [runLoop, h1, h2f, if_false, ite_false]
        rcases hmem with h | h
        · subst h
          exact absurd hv (by simp [h2f])
        · exact ih seen h hv hn

/-- The counter equals the number of dispatches. -/
theorem runLoop_count_eq (sendOk : String → Growth → Bool) (seen : Finset String)
    (items : List TrendItem) :
    (runLoop sendOk seen items).new_trends_found =
      (runLoop sendOk seen items).dispatches.length := by
  induction items generalizing seen with
  | nil => simp [runLoop]
  | cons item rest ih =>
    by_cases h1 : item.query ∈ seen
    · simp [runLoop, h1, ih]
    · by_cases h2 : is_valid_phrase item.query
      · simp [runLoop, h1, h2, ih]
      · simp [runLoop, h1, h2, ih]

/-- Every filtered phrase was rejected by the filter. -/
theorem runLoop_filtered_invalid (sendOk : String → Growth → Bool) (seen : Finset String)
    (items : List TrendItem) (q : String) :
    q ∈ (runLoop sendOk seen items).filtered → is_valid_phrase q = false := by
  induction items generalizing seen with
  | nil => simp [runLoop]
  | cons item rest ih =>
    by_cases h1 : item.query ∈ seen
    · simp only [runLoop, h1, if_true, ite_true]
      exact ih seen
    · by_cases h2 : is_valid_phrase item.query = true
      · simp only [runLoop, h1, h2, if_false, if_true, ite_false, ite_true]
        exact ih (insert item.query seen)
      · have h2f : is_valid_phrase item.query = false := by simpa using h2
        simp only [runLoop, h1, h2f, Bool.false_eq_true, if_false, ite_false,
          List.mem_cons]
        intro h
        rcases h with h | h
        · subst h
          exact h2f
        · exact ih seen h

/-- A phrase that is already in the in-memory set is never handed to the
filter during the loop. -/
theorem runLoop_seen_not_evaluated (sendOk : String → Growth → Bool) (seen : Finset String)
    (items : List TrendItem) (q : String) :
    q ∈ seen → q ∉ (runLoop sendOk seen items).evaluated := by
  induction items generalizing seen with
  | nil => simp [runLoop]
  | cons item rest ih =>
    intro hq
    by_cases h1 : item.query ∈ seen
    · simp only [runLoop, h1, if_true, ite_true]
      exact ih seen hq
    · by_cases h2 : is_valid_phrase item.query = true
      · simp only [runLoop, h1, h2, if_false, if_true, ite_false, ite_true,
          List.mem_cons]
        intro h
        rcases h with h | h
        · exact h1 (h ▸ hq)
        · exact ih (insert item.query seen) (Finset.mem_insert_of_mem hq) h
      · have h2f : is_valid_phrase item.query = false := by simpa using h2
        simp only [runLoop, h1, h2f, Bool.false_eq_true, if_false, ite_false,
          List.mem_cons]
        intro h
        rcases h with h | h
        · exact h1 (h ▸ hq)
        · exact ih seen hq h

/-- Every candidate lands in exactly one of the three observable lists:
occurrence counts per phrase add up. -/
theorem runLoop_count_partition (sendOk : String → Growth → Bool) (seen : Finset String)
    (items : List TrendItem) (q : String) :
    (items.map TrendItem.query).count q =
      (runLoop sendOk seen items).skippedSeen.count q +
      (runLoop sendOk seen items).filtered.count q +
      ((runLoop sendOk seen items).dispatches.map Prod.fst).count q := by
  induction items generalizing seen with
  | nil => simp [runLoop]
  | cons item rest ih =>
    by_cases h1 : item.query ∈ seen
    · simp only [runLoop, h1, if_true, ite_true, List.map_cons, List.count_cons]
      rw [ih seen]
      ring
    · by_cases h2 : is_valid_phrase item.query = true
      · simp only [runLoop, h1, h2, if_false, if_true, ite_false, ite_true,
          List.map_cons, List.count_cons]
        rw [ih (insert item.query seen)]
        ring
      · have h2f : is_valid_phrase item.query = false := by simpa using h2
        simp only [runLoop, h1, h2f, Bool.false_eq_true, if_false, ite_false,
          List.map_cons, List.count_cons]
        rw [ih seen]
        ring

/-- The loop is single-pass and complete: every candidate is accounted for. -/
theorem runLoop_length_partition (sendOk : String → Growth → Bool) (seen : Finset String)
    (items : List TrendItem) :
    (runLoop sendOk seen items).skippedSeen.length +
      (runLoop sendOk seen items).filtered.length +
      (runLoop sendOk seen items).dispatches.length = items.length := by
  induction items generalizing seen with
  | nil => simp [runLoop]
  | cons item rest ih =>
    by_cases h1 : item.query ∈ seen
    · simp only [runLoop, h1, if_true, ite_true, List.length_cons]
      rw [← ih seen]
      ring
    · by_cases h2 : is_valid_phrase item.query = true
      · simp only [runLoop, h1, h2, if_false, if_true, ite_false, ite_true,
          List.length_cons]
        rw [← ih (insert item.query seen)]
        ring
      · have h2f : is_valid_phrase item.query = false := by simpa using h2
        simp only [runLoop, h1, h2f, Bool.false_eq_true, if_false, ite_false,
          List.length_cons]
        rw [← ih seen]
        ring

/-- If every candidate is already seen or invalid, the loop dispatches
nothing. -/
theorem runLoop_no_dispatch (sendOk : String → Growth → Bool) (seen : Finset String)
    (items : List TrendItem) :
    (∀ item ∈ items, item.query ∈ seen ∨ is_valid_phrase item.query = false) →
      (runLoop sendOk seen items).dispatches = [] := by
  induction items generalizing seen with
  | nil => simp [runLoop]
  | cons item rest ih =>
    intro hall
    by_cases h1 : item.query ∈ seen
    · simp only [runLoop, h1, if_true, ite_true]
      exact ih seen (fun it hit => hall it (List.mem_cons_of_mem _ hit))
    · rcases hall item (List.mem_cons_self _ _) with h | h
      · exact absurd h h1
      · simp only [runLoop, h1, h, Bool.false_eq_true, if_false, ite_false]
        exact ih seen (fun it hit => hall it (List.mem_cons_of_mem _ hit))

/-! ### Characterising the filter -/

/-- `contains_excluded` is false exactly when no entry of the set occurs in
the phrase. -/
theorem contains_excluded_eq_false (S : List String) (lp : String) :
    contains_excluded S lp = false ↔ ∀ e ∈ S, pyIn e lp = false := by
  simp [contains_excluded]

/-- `is_valid_phrase` as the conjunction of its four checks. -/
theorem is_valid_phrase_iff (phrase : String) :
    is_valid_phrase phrase = true ↔
      pyIn "shirt" (pyLower phrase) = true ∧
      contains_excluded EXCLUDED_COLORS (pyLower phrase) = false ∧
      contains_excluded EXCLUDED_MATERIALS (pyLower phrase) = false ∧
      contains_excluded EXCLUDED_BRANDS (pyLower phrase) = false := by
  simp only [is_valid_phrase]
  cases h1 : pyIn "shirt" (pyLower phrase) <;>
    cases h2 : contains_excluded EXCLUDED_COLORS (pyLower phrase) <;>
      cases h3 : contains_excluded EXCLUDED_MATERIALS (pyLower phrase) <;>
        cases h4 : contains_excluded EXCLUDED_BRANDS (pyLower phrase) <;>
          simp [h1, h2, h3, h4]

/-! ### Decimal representations never spell "breakout" -/

/-- The decimal digit characters. -/
def decimalChars : List Char :=
  ['0', '1', '2', '3', '4', '5', '6', '7', '8', '9']

/-- `Nat.digitChar` of a value below ten is a decimal digit character. -/
theorem digitChar_mem_decimalChars (m : Nat) (h : m < 10) :
    Nat.digitChar m ∈ decimalChars := by
  interval_cases m <;> decide

/-- All characters produced by `Nat.toDigitsCore` in base ten are decimal
digits (given the accumulator already is). -/
theorem toDigitsCore_chars (f : Nat) :
    ∀ (n : Nat) (acc : List Char), (∀ c ∈ acc, c ∈ decimalChars) →
      ∀ c ∈ Nat.toDigitsCore 10 f n acc, c ∈ decimalChars := by
  induction f with
  | zero =>
    intro n acc hacc
    simpa [Nat.toDigitsCore] using hacc
  | succ f ih =>
    intro n acc hacc c hc
    simp only [Nat.toDigitsCore] at hc
    have hmod : Nat.digitChar (n % 10) ∈ decimalChars :=
      digitChar_mem_decimalChars _ (Nat.mod_lt _ (by norm_num))
    by_cases h : n / 10 = 0
    · simp only [h, if_true, ite_true] at hc
      rcases List.mem_cons.mp hc with rfl | hmem
      · exact hmod
      · exact hacc c hmem
    · simp only [h, if_false, ite_false] at hc
      refine ih (n / 10) (Nat.digitChar (n % 10) :: acc) ?_ c hc
      intro d hd
      rcases List.mem_cons.mp hd with rfl | hmem
      · exact hmod
      · exact hacc d hmem

/-- All characters of `Nat.repr` are decimal digits. -/
theorem natRepr_chars (n : Nat) : ∀ c ∈ (Nat.repr n).data, c ∈ decimalChars := by
  intro c hc
  have : (Nat.repr n).data = Nat.toDigitsCore 10 (n + 1) n [] := rfl
  rw [this] at hc
  exact toDigitsCore_chars (n + 1) n [] (by simp) c hc

/-- All characters of the string form of an integer are a minus sign or a
decimal digit. -/
theorem intToString_chars (i : Int) :
    ∀ c ∈ (toString i).data, c ∈ decimalChars ∨ c = Char.ofNat 45 := by
  intro c hc
  cases i with
  | ofNat n =>
    have : (toString (Int.ofNat n)).data = (Nat.repr n).data := rfl
    rw [this] at hc
    exact Or.inl (natRepr_chars n c hc)
  | negSucc n =>
    have : (toString (Int.negSucc n)).data = Char.ofNat 45 :: (Nat.repr (n + 1)).data := rfl
    rw [this] at hc
    rcases List.mem_cons.mp hc with rfl | hmem
    · exact Or.inr rfl
    · exact Or.inl (natRepr_chars (n + 1) c hmem)

/-- The lowercased string form of an integer is never the word "breakout". -/
theorem intToString_ne_breakout (i : Int) : pyLower (toString i) ≠ "breakout" := by
  intro h
  have hdata : (toString i).data.map Char.toLower = "breakout".data :=
    congrArg String.data h
  cases hl : (toString i).data with
  | nil => rw [hl] at hdata; simp at hdata
  | cons c t =>
    rw [hl] at hdata
    have hb : Char.toLower c = Char.ofNat 98 := by
      have := congrArg (fun l => l.head?) hdata
      simpa using this
    have hc : c ∈ decimalChars ∨ c = Char.ofNat 45 :=
      intToString_chars i c (by rw [hl]; exact List.mem_cons_self _ _)
    rcases hc with hc | rfl
    · fin_cases hc <;> simp_all
    · exact absurd hb (by decide)

/-! ### Claim theorems -/

/-- C1: a phrase whose lowercase form contains "shirt" and no entry of the
color, material or brand exclusion sets as a substring is accepted by
`is_valid_phrase`; a phrase without "shirt" is rejected; a phrase with
"shirt" together with an exclusion entry (case-insensitively) is rejected;
in particular "Black Shirt" is rejected and "Graphic Tee Shirt" accepted. -/
theorem c1_filter_characterization (phrase : String) :
    (is_valid_phrase phrase = true ↔
      (pyIn "shirt" (pyLower phrase) = true ∧
        ∀ e ∈ EXCLUDED_COLORS ++ EXCLUDED_MATERIALS ++ EXCLUDED_BRANDS,
          pyIn e (pyLower phrase) = false)) ∧
    is_valid_phrase "Black Shirt" = false ∧
    is_valid_phrase "Graphic Tee Shirt" = true := by
  refine ⟨?_, by decide, by decide⟩
  rw [is_valid_phrase_iff, contains_excluded_eq_false, contains_excluded_eq_false,
    contains_excluded_eq_false]
  constructor
  · rintro ⟨h1, h2, h3, h4⟩
    refine ⟨h1, fun e he => ?_⟩
    simp only [List.mem_append] at he
    rcases he with (he | he) | he
    · exact h2 e he
    · exact h3 e he
    · exact h4 e he
  · rintro ⟨h1, h⟩
    exact ⟨h1, fun e he => h e (by simp [List.mem_append, he]),
      fun e he => h e (by simp [List.mem_append, he]),
      fun e he => h e (by simp [List.mem_append, he])⟩

/-- C4: `_load_seen_phrases` returns the empty set on a missing file, an
unreadable file, and a file that fails JSON decoding — but a file holding
a well-formed JSON number (malformed as a seen-phrase store) makes
`set(data)` raise a `TypeError` that is not caught by the
`except (json.JSONDecodeError, IOError)` clause, contradicting the claim
that no exception escapes the load boundary. -/
theorem c4_load_boundary :
    load_seen_phrases FileContent.missing = LoadResult.ok ∅ ∧
    load_seen_phrases FileContent.ioError = LoadResult.ok ∅ ∧
    load_seen_phrases FileContent.invalidJson = LoadResult.ok ∅ ∧
    load_seen_phrases (FileContent.content (JVal.num 5)) = LoadResult.raises "TypeError" :=
  ⟨rfl, rfl, rfl, rfl⟩

/-- C8: saving a seen-phrase store of any size and loading it back yields a
set equal to the original, and the N = 0 case with a missing file also
loads as the empty set. -/
theorem c8_save_load_roundtrip :
    (∀ seen_phrases : Finset String,
      load_seen_phrases (save_seen_phrases seen_phrases) = LoadResult.ok seen_phrases) ∧
    load_seen_phrases FileContent.missing = LoadResult.ok (∅ : Finset String) := by
  refine ⟨fun s => ?_, rfl⟩
  simp [load_seen_phrases, save_seen_phrases, Finset.sort_toFinset]

/-- C9: every alert is a single formatted message containing the title-cased
phrase, the rendered growth and the timestamp; a numeric growth V renders
as "+V%" (250 renders as "+250%"), and the literal breakout marker renders
as the unconditional "BREAKOUT" flag. -/
theorem c9_message_format (phrase timestamp : String) :
    (∀ g : Growth, ∃ pre mid post : String,
      telegramMessage phrase g timestamp =
        pre ++ pyTitle phrase ++ mid ++ growthStr g ++ post ++ timestamp) ∧
    (∀ n : Int, growthStr (Growth.num n) = "+" ++ toString n ++ "%") ∧
    growthStr (Growth.num 250) = "+250%" ∧
    growthStr (Growth.str "Breakout") = "BREAKOUT" := by
  refine ⟨fun g => ⟨"ðŸ‘• <b>NEW TREND DETECTED</b>\n\nPhrase: <b>",
    "</b>\nGrowth: ", "\nStatus: RISING\nTime: ", rfl⟩, fun n => ?_, by decide, by decide⟩
  have hne := intToString_ne_breakout n
  simp [growthStr, pyStr, hne]

/-- Saving a set and loading it back yields the same set (helper shared by
several claims). -/
theorem load_save (s : Finset String) :
    load_seen_phrases (save_seen_phrases s) = LoadResult.ok s := by
  simp [load_seen_phrases, save_seen_phrases, Finset.sort_toFinset]

/-- C3 counterexample: with "oversized shirt" in the store, the candidate
"Oversized Shirt" — equal to it up to letter case — is NOT treated as seen:
the loop dispatches an alert for it instead of skipping it, because `run`
tests `query in self.seen_phrases` on the raw phrase, with no lowercase
normalization. -/
theorem c3_counterexample :
    pyLower "Oversized Shirt" = pyLower "oversized shirt" ∧
    "oversized shirt" ∈ ({"oversized shirt"} : Finset String) ∧
    "Oversized Shirt" ∉ ({"oversized shirt"} : Finset String) ∧
    (runLoop (fun _ _ => true) {"oversized shirt"}
      [⟨"Oversized Shirt", Growth.num 250⟩]).skippedSeen = [] ∧
    (runLoop (fun _ _ => true) {"oversized shirt"}
      [⟨"Oversized Shirt", Growth.num 250⟩]).dispatches.map Prod.fst =
      ["Oversized Shirt"] := by
  decide

/-- C3 amended: membership in the seen-phrase store is decided by exact,
case-sensitive string equality on the raw candidate phrase (no lowercase
normalization): a candidate whose exact string is in the store is skipped
(never filter-evaluated, never dispatched), and a valid candidate whose
exact string is absent is dispatched even if the store holds a variant
differing only in case. -/
theorem c3_exact_string_dedup (sendOk : String → Growth → Bool) (seen : Finset String)
    (items : List TrendItem) (q : String) :
    (q ∈ seen → q ∉ (runLoop sendOk seen items).evaluated ∧
      q ∉ (runLoop sendOk seen items).dispatches.map Prod.fst) ∧
    (q ∉ seen → is_valid_phrase q = true → q ∈ items.map TrendItem.query →
      q ∈ (runLoop sendOk seen items).dispatches.map Prod.fst) := by
  refine ⟨fun hq => ⟨runLoop_seen_not_evaluated sendOk seen items q hq, fun hd => ?_⟩,
    fun hn hv hmem => runLoop_dispatch_complete sendOk seen items q hmem hv hn⟩
  exact (runLoop_dispatch_mem sendOk seen items q hd).2.1 hq

/-- C6: a candidate already in the store is skipped with no filter
evaluation and no dispatch; a filter-rejected candidate is never added to
the store; every phrase newly added during a run had an alert dispatch
attempted in that run. -/
theorem c6_store_only_alerted (sendOk : String → Growth → Bool) (seen : Finset String)
    (items : List TrendItem) (q : String) :
    (q ∈ seen → q ∉ (runLoop sendOk seen items).evaluated ∧
      q ∉ (runLoop sendOk seen items).dispatches.map Prod.fst) ∧
    (q ∈ (runLoop sendOk seen items).filtered →
      (q ∈ (runLoop sendOk seen items).seen ↔ q ∈ seen)) ∧
    (q ∈ (runLoop sendOk seen items).seen → q ∉ seen →
      q ∈ (runLoop sendOk seen items).dispatches.map Prod.fst) := by
  refine ⟨fun hq => ⟨runLoop_seen_not_evaluated sendOk seen items q hq, fun hd => ?_⟩,
    fun hf => ?_, fun hs hn => ?_⟩
  · exact (runLoop_dispatch_mem sendOk seen items q hd).2.1 hq
  · have hinv := runLoop_filtered_invalid sendOk seen items q hf
    rw [runLoop_seen_eq]
    constructor
    · intro hmem
      rcases Finset.mem_union.mp hmem with h | h
      · exact h
      · have hv := (runLoop_dispatch_mem sendOk seen items q (List.mem_toFinset.mp h)).1
        exact absurd hv (by simp [hinv])
    · exact fun h => Finset.mem_union_left _ h
  · rw [runLoop_seen_eq] at hs
    rcases Finset.mem_union.mp hs with h | h
    · exact absurd h hn
    · exact List.mem_toFinset.mp h

/-- C7: the save is invoked iff the new-alert counter is positive, which
holds iff the in-memory seen set grew during the run; a run that adds no
phrase performs no write. -/
theorem c7_save_iff_counter (sendOk : String → Growth → Bool) (seen : Finset String)
    (items : List TrendItem) :
    ((run sendOk seen items).2 ≠ none ↔
      (runLoop sendOk seen items).new_trends_found > 0) ∧
    ((runLoop sendOk seen items).new_trends_found > 0 ↔
      (runLoop sendOk seen items).seen ≠ seen) := by
  constructor
  · by_cases h : (runLoop sendOk seen items).new_trends_found > 0
    · simp [run, h]
    · simp [run, h]
  · rw [runLoop_count_eq]
    constructor
    · intro h hseen
      have hne : (runLoop sendOk seen items).dispatches ≠ [] := by
        intro hnil
        rw [hnil] at h
        simp at h
      obtain ⟨p, hp⟩ := List.exists_mem_of_ne_nil _ hne
      have hq : p.1 ∈ (runLoop sendOk seen items).dispatches.map Prod.fst :=
        List.mem_map_of_mem _ hp
      have hnotin := (runLoop_dispatch_mem sendOk seen items p.1 hq).2.1
      have hin : p.1 ∈ (runLoop sendOk seen items).seen := by
        rw [runLoop_seen_eq]
        exact Finset.mem_union_right _ (List.mem_toFinset.mpr hq)
      rw [hseen] at hin
      exact hnotin hin
    · intro h
      rcases Nat.eq_zero_or_pos (runLoop sendOk seen items).dispatches.length with h0 | h0
      · exfalso
        apply h
        rw [runLoop_seen_eq, List.length_eq_zero.mp h0]
        simp
      · exact h0

/-- C10: within one scan, each phrase is dispatched at most once — the first
qualifying occurrence triggers the single dispatch, every later occurrence
of the same phrase is skipped by the seen-check, and the new-alert counter
counts distinct dispatched phrases. -/
theorem c10_first_occurrence_only (sendOk : String → Growth → Bool) (seen : Finset String)
    (items : List TrendItem) (q : String) :
    ((runLoop sendOk seen items).dispatches.map Prod.fst).Nodup ∧
    (runLoop sendOk seen items).new_trends_found =
      (runLoop sendOk seen items).dispatches.length ∧
    (q ∈ (runLoop sendOk seen items).dispatches.map Prod.fst →
      ((runLoop sendOk seen items).dispatches.map Prod.fst).count q = 1 ∧
      (runLoop sendOk seen items).filtered.count q = 0 ∧
      (runLoop sendOk seen items).skippedSeen.count q + 1 =
        (items.map TrendItem.query).count q) := by
  refine ⟨runLoop_dispatch_nodup sendOk seen items, runLoop_count_eq sendOk seen items,
    fun hq => ?_⟩
  have hc1 : ((runLoop sendOk seen items).dispatches.map Prod.fst).count q = 1 :=
    List.count_eq_one_of_mem (runLoop_dispatch_nodup sendOk seen items) hq
  have hval := (runLoop_dispatch_mem sendOk seen items q hq).1
  have hf0 : (runLoop sendOk seen items).filtered.count q = 0 := by
    rw [List.count_eq_zero]
    intro hmem
    have hinv := runLoop_filtered_invalid sendOk seen items q hmem
    exact absurd hval (by simp [hinv])
  refine ⟨hc1, hf0, ?_⟩
  have hpart := runLoop_count_partition sendOk seen items q
  rw [hc1, hf0] at hpart
  omega

/-- C2: after a scan whose persistence step succeeded and whose saved store
the second scan loads, a second scan over the identical candidate list
dispatches no alert at all, so each qualifying phrase is alerted exactly
once across the two runs. -/
theorem c2_second_scan_no_new_alerts
    (sendOk1 sendOk2 : String → Growth → Bool) (oldFile : FileContent)
    (seen seen2 : Finset String) (items : List TrendItem)
    (h1 : load_seen_phrases oldFile = LoadResult.ok seen)
    (h2 : load_seen_phrases (fileAfter oldFile (run sendOk1 seen items).2) =
      LoadResult.ok seen2) :
    (runLoop sendOk2 seen2 items).dispatches = [] ∧
    ∀ q ∈ (runLoop sendOk1 seen items).dispatches.map Prod.fst,
      ((runLoop sendOk1 seen items).dispatches.map Prod.fst).count q +
        ((runLoop sendOk2 seen2 items).dispatches.map Prod.fst).count q = 1 := by
  have hseen2 : seen2 = (runLoop sendOk1 seen items).seen := by
    by_cases h : (runLoop sendOk1 seen items).new_trends_found > 0
    · have hfile : fileAfter oldFile (run sendOk1 seen items).2 =
          save_seen_phrases (runLoop sendOk1 seen items).seen := by
        simp [run, fileAfter, h]
      rw [hfile, load_save] at h2
      injection h2 with h3
      exact h3.symm
    · have hnone : (run sendOk1 seen items).2 = none := by simp [run, h]
      rw [hnone] at h2
      simp only [fileAfter, Option.getD_none] at h2
      rw [h1] at h2
      injection h2 with h3
      have hnil : (runLoop sendOk1 seen items).dispatches = [] := by
        have hcount := runLoop_count_eq sendOk1 seen items
        have hlen : (runLoop sendOk1 seen items).dispatches.length = 0 := by omega
        exact List.length_eq_zero.mp hlen
      rw [← h3, runLoop_seen_eq, hnil]
      simp
  have hall : ∀ item ∈ items,
      item.query ∈ seen2 ∨ is_valid_phrase item.query = false := by
    intro item hit
    by_cases hv : is_valid_phrase item.query = true
    · left
      rw [hseen2, runLoop_seen_eq]
      by_cases hs : item.query ∈ seen
      · exact Finset.mem_union_left _ hs
      · exact Finset.mem_union_right _ (List.mem_toFinset.mpr
          (runLoop_dispatch_complete sendOk1 seen items item.query
            (List.mem_map_of_mem _ hit) hv hs))
    · right
      simpa using hv
  have hnil2 : (runLoop sendOk2 seen2 items).dispatches = [] :=
    runLoop_no_dispatch sendOk2 seen2 items hall
  refine ⟨hnil2, fun q hq => ?_⟩
  rw [hnil2]
  simp only [List.map_nil, List.count_nil, Nat.add_zero]
  exact List.count_eq_one_of_mem (runLoop_dispatch_nodup sendOk1 seen items) hq

/-- C5: for a qualifying phrase, the loop still completes over all
candidates, the phrase is dispatched and added to the in-memory store no
matter what the transport outcome for it (or any other phrase) is, the
run then invokes the save, and the phrase is in the persisted store. -/
theorem c5_dispatch_failure_still_persisted
    (sendOk : String → Growth → Bool) (seen : Finset String)
    (items : List TrendItem) (q : String)
    (hmem : q ∈ items.map TrendItem.query) (hv : is_valid_phrase q = true)
    (hn : q ∉ seen) :
    q ∈ (runLoop sendOk seen items).dispatches.map Prod.fst ∧
    q ∈ (runLoop sendOk seen items).seen ∧
    (run sendOk seen items).2 =
      some (save_seen_phrases (runLoop sendOk seen items).seen) ∧
    load_seen_phrases (save_seen_phrases (runLoop sendOk seen items).seen) =
      LoadResult.ok (runLoop sendOk seen items).seen ∧
    (runLoop sendOk seen items).skippedSeen.length +
      (runLoop sendOk seen items).filtered.length +
      (runLoop sendOk seen items).dispatches.length = items.length := by
  have hd := runLoop_dispatch_complete sendOk seen items q hmem hv hn
  have hseen : q ∈ (runLoop sendOk seen items).seen := by
    rw [runLoop_seen_eq]
    exact Finset.mem_union_right _ (List.mem_toFinset.mpr hd)
  have hpos : (runLoop sendOk seen items).new_trends_found > 0 := by
    rw [runLoop_count_eq]
    have hne : (runLoop sendOk seen items).dispatches ≠ [] := by
      intro h0
      rw [h0] at hd
      simp at hd
    exact List.length_pos.mpr hne
  exact ⟨hd, hseen, by simp [run, hpos], load_save _,
    runLoop_length_partition sendOk seen items⟩

/-- Witness for C2 at a concrete input: first run over the single candidate
"Oversized Shirt" starting from an empty store saved from a missing file;
the second run loads the saved store and dispatches nothing. -/
theorem c2_second_scan_no_new_alerts_witness :
    (load_seen_phrases FileContent.missing = LoadResult.ok ∅ ∧
      load_seen_phrases (fileAfter FileContent.missing
        (run (fun _ _ => false) ∅ [⟨"Oversized Shirt", Growth.num 250⟩]).2) =
        LoadResult.ok {"Oversized Shirt"}) ∧
    ((runLoop (fun _ _ => false) {"Oversized Shirt"}
        [⟨"Oversized Shirt", Growth.num 250⟩]).dispatches = [] ∧
      ∀ q ∈ (runLoop (fun _ _ => false) ∅
          [⟨"Oversized Shirt", Growth.num 250⟩]).dispatches.map Prod.fst,
        ((runLoop (fun _ _ => false) ∅
            [⟨"Oversized Shirt", Growth.num 250⟩]).dispatches.map Prod.fst).count q +
          ((runLoop (fun _ _ => false) {"Oversized Shirt"}
            [⟨"Oversized Shirt", Growth.num 250⟩]).dispatches.map Prod.fst).count q = 1) := by
  have hval : is_valid_phrase "Oversized Shirt" = true := by decide
  have hrun : (run (fun _ _ => false) ∅ [⟨"Oversized Shirt", Growth.num 250⟩]).2 =
      some (save_seen_phrases {"Oversized Shirt"}) := by
    simp [run, runLoop, hval, insert_emptyc_eq]
  have h2 : load_seen_phrases (fileAfter FileContent.missing
      (run (fun _ _ => false) ∅ [⟨"Oversized Shirt", Growth.num 250⟩]).2) =
      LoadResult.ok {"Oversized Shirt"} := by
    rw [hrun]
    simpa [fileAfter] using load_save {"Oversized Shirt"}
  exact ⟨⟨rfl, h2⟩,
    c2_second_scan_no_new_alerts (fun _ _ => false) (fun _ _ => false)
      FileContent.missing ∅ {"Oversized Shirt"}
      [⟨"Oversized Shirt", Growth.num 250⟩] rfl h2⟩

/-- Witness for C5 at a concrete input: the transport fails for every
dispatch (oracle constantly false), yet "Oversized Shirt" is dispatched,
added to the store, and present in the persisted store. -/
theorem c5_dispatch_failure_still_persisted_witness :
    ("Oversized Shirt" ∈
        ([⟨"Oversized Shirt", Growth.num 250⟩] : List TrendItem).map TrendItem.query ∧
      is_valid_phrase "Oversized Shirt" = true ∧
      "Oversized Shirt" ∉ (∅ : Finset String)) ∧
    ("Oversized Shirt" ∈ (runLoop (fun _ _ => false) ∅
        [⟨"Oversized Shirt", Growth.num 250⟩]).dispatches.map Prod.fst ∧
      "Oversized Shirt" ∈ (runLoop (fun _ _ => false) ∅
        [⟨"Oversized Shirt", Growth.num 250⟩]).seen ∧
      (run (fun _ _ => false) ∅ [⟨"Oversized Shirt", Growth.num 250⟩]).2 =
        some (save_seen_phrases (runLoop (fun _ _ => false) ∅
          [⟨"Oversized Shirt", Growth.num 250⟩]).seen) ∧
      load_seen_phrases (save_seen_phrases (runLoop (fun _ _ => false) ∅
          [⟨"Oversized Shirt", Growth.num 250⟩]).seen) =
        LoadResult.ok (runLoop (fun _ _ => false) ∅
          [⟨"Oversized Shirt", Growth.num 250⟩]).seen ∧
      (runLoop (fun _ _ => false) ∅
          [⟨"Oversized Shirt", Growth.num 250⟩]).skippedSeen.length +
        (runLoop (fun _ _ => false) ∅
          [⟨"Oversized Shirt", Growth.num 250⟩]).filtered.length +
        (runLoop (fun _ _ => false) ∅
          [⟨"Oversized Shirt", Growth.num 250⟩]).dispatches.length =
        ([⟨"Oversized Shirt", Growth.num 250⟩] : List TrendItem).length) :=
  ⟨⟨by decide, by decide, by decide⟩,
    c5_dispatch_failure_still_persisted (fun _ _ => false) ∅
      [⟨"Oversized Shirt", Growth.num 250⟩] "Oversized Shirt"
      (by decide) (by decide) (by decide)⟩
